import Mathlib

/-!
Shallow embedding of the queue/sequencing engine of the icho audio player
(`src/icho/player.py`, class `AudioPlayer`).

The mutable fields of `AudioPlayer` become a `PlayerState` record; each public
method becomes a function `PlayerState → PlayerState × List PEvent`, where the
event list records the signals (`trackChanged`, `upcomingChanged`) emitted by
the call, in emission order.  Backend-only calls (`stop`, `play`, VLC loading)
have no effect on the sequencing state and are dropped; `_load_current` is kept
as the event it emits.  `random.shuffle` is modelled by an explicit shuffler
parameter `σ : List Nat → List Nat`; theorems that need it assume `σ` permutes
its input (`GoodShuffler`).
-/

namespace Icho

/-- The sequencing-relevant state of `AudioPlayer`:
`_playlist`, `_index`, `_history`, `_upcoming_indices`, `_last_shuffle`,
`_manual_next`.  Indices stored in the three lists are natural numbers
(the source only ever stores values obtained from `range`, `list.index`
or a bounds-checked `_index`). -/
structure PlayerState where
  playlist : List String
  index : Int
  history : List Nat
  upcoming : List Nat
  lastShuffle : Bool
  manualNext : List Nat
deriving Repr, DecidableEq

/-- The two signals whose emission the spec talks about. -/
inductive PEvent where
  | trackChanged (path : String)
  | upcomingChanged
deriving Repr, DecidableEq

/-- The state built by `AudioPlayer.__init__`. -/
def initState : PlayerState :=
  { playlist := [], index := -1, history := [], upcoming := [],
    lastShuffle := false, manualNext := [] }

/-- `0 <= self._index < len(self._playlist)`, the guard used throughout the
source. -/
def ValidIndex (s : PlayerState) : Prop :=
  0 ≤ s.index ∧ s.index < (s.playlist.length : Int)

instance (s : PlayerState) : Decidable (ValidIndex s) := by
  unfold ValidIndex; infer_instance

/-- `AudioPlayer.current_track`. -/
def current_track (s : PlayerState) : Option String :=
  if ValidIndex s then s.playlist[s.index.toNat]? else none

/-- `AudioPlayer.current_index`. -/
def current_index (s : PlayerState) : Int := s.index

/-- `AudioPlayer._load_current`: emits `trackChanged(playlist[index])` when the
index is valid, nothing otherwise. -/
def load_current (s : PlayerState) : List PEvent :=
  match current_track s with
  | some p => [PEvent.trackChanged p]
  | none => []

/-- `AudioPlayer.rebuild_upcoming`.  The shuffle branch applies the shuffler
`σ` to `[i for i in range(len(playlist)) if i != index]`; the linear branch
overwrites it with `range(index+1, len(playlist))`. -/
def rebuild_upcoming (σ : List Nat → List Nat) (shuffle : Bool)
    (s : PlayerState) : PlayerState × List PEvent :=
  if s.playlist = [] ∨ ¬ ValidIndex s then
    ({ s with lastShuffle := shuffle, upcoming := [] }, [PEvent.upcomingChanged])
  else
    let remaining :=
      if shuffle then
        σ ((List.range s.playlist.length).filter (fun i => (i : Int) ≠ s.index))
      else
        List.range' (s.index.toNat + 1) (s.playlist.length - (s.index.toNat + 1))
    ({ s with lastShuffle := shuffle, upcoming := remaining },
     [PEvent.upcomingChanged])

/-- `AudioPlayer.upcoming_tracks`, i.e. `[playlist[i] for i in upcoming]`.
The source indexes without a bounds check and raises `IndexError` on a stale
index; the embedding returns `none` exactly in that case. -/
def upcoming_tracks (s : PlayerState) : Option (List String) :=
  s.upcoming.mapM (fun i => s.playlist[i]?)

/-- `AudioPlayer.remove_upcoming`. -/
def remove_upcoming (position : Int) (s : PlayerState) :
    PlayerState × List PEvent :=
  if 0 ≤ position ∧ position < (s.upcoming.length : Int) then
    ({ s with upcoming := s.upcoming.eraseIdx position.toNat },
     [PEvent.upcomingChanged])
  else (s, [])

/-- `AudioPlayer.clear_upcoming`. -/
def clear_upcoming (s : PlayerState) : PlayerState × List PEvent :=
  ({ s with upcoming := [] }, [PEvent.upcomingChanged])

/-- The shared path-resolution step of `add_to_upcoming` and `add_play_next`:
`idx = playlist.index(p)` when present, else append `p` and use the old
length.  Returns the (possibly extended) state and the resolved index. -/
def resolve_path (s : PlayerState) (p : String) : PlayerState × Nat :=
  if p ∈ s.playlist then (s, s.playlist.indexOf p)
  else ({ s with playlist := s.playlist ++ [p] }, s.playlist.length)

/-- One iteration of the `for p in paths` loop of `add_to_upcoming`,
threading the `changed` flag. -/
def addToUpcomingStep (sc : PlayerState × Bool) (p : String) :
    PlayerState × Bool :=
  if current_track sc.1 = some p then sc
  else
    let s1 := (resolve_path sc.1 p).1
    let idx := (resolve_path sc.1 p).2
    let changed1 := sc.2 || decide (¬ p ∈ sc.1.playlist)
    if (idx : Int) = s1.index then (s1, changed1)
    else if idx ∈ s1.upcoming then (s1, changed1)
    else ({ s1 with upcoming := s1.upcoming ++ [idx] }, true)

/-- `AudioPlayer.add_to_upcoming`. -/
def add_to_upcoming (paths : List String) (s : PlayerState) :
    PlayerState × List PEvent :=
  let r := paths.foldl addToUpcomingStep (s, false)
  (r.1, if r.2 then [PEvent.upcomingChanged] else [])

/-- One iteration of the `for p in paths` loop of `add_play_next`,
accumulating `new_indices`. -/
def addPlayNextStep (acc : PlayerState × List Nat) (p : String) :
    PlayerState × List Nat :=
  if current_track acc.1 = some p then acc
  else
    let s1 := (resolve_path acc.1 p).1
    let idx := (resolve_path acc.1 p).2
    if (idx : Int) = s1.index then (s1, acc.2)
    else if idx ∈ acc.2 ∨ idx ∈ s1.manualNext then (s1, acc.2)
    else (s1, acc.2 ++ [idx])

/-- `AudioPlayer.add_play_next`: the resolved batch is prepended to
`manual_next`; `upcomingChanged` is emitted iff the batch is non-empty. -/
def add_play_next (paths : List String) (s : PlayerState) :
    PlayerState × List PEvent :=
  let r := paths.foldl addPlayNextStep (s, [])
  let s1 := r.1
  let newIdx := r.2
  if newIdx = [] then (s1, [])
  else ({ s1 with manualNext := newIdx ++ s1.manualNext },
        [PEvent.upcomingChanged])

/-- `AudioPlayer.manual_next_tracks`:
`[playlist[i] for i in manual_next if 0 <= i < len(playlist)]`. -/
def manual_next_tracks (s : PlayerState) : List String :=
  s.manualNext.filterMap (fun i => s.playlist[i]?)

/-- The tail of `peek_next` after the manual-override block: the
shuffle/linear lookup (reached when `manual_next` is empty or its head is out
of range). -/
def peekNextRest (σ : List Nat → List Nat) (shuffle : Bool)
    (s : PlayerState) : Option String × PlayerState × List PEvent :=
  if shuffle then
    let r := if s.upcoming = [] then rebuild_upcoming σ true s else (s, [])
    let s1 := r.1
    match s1.upcoming with
    | u :: _ => (s1.playlist[u]?, s1, r.2)
    | [] => (none, s1, r.2)
  else if s.playlist.length ≤ 1 then (none, s, [])
  else
    let nxt := if s.index + 1 < (s.playlist.length : Int)
               then (s.index + 1).toNat else 0
    (s.playlist[nxt]?, s, [])

/-- `AudioPlayer.peek_next`.  Returns the peeked path together with the state
after the call (the shuffle branch may rebuild the upcoming list) and the
events emitted. -/
def peek_next (σ : List Nat → List Nat) (shuffle : Bool)
    (s : PlayerState) : Option String × PlayerState × List PEvent :=
  if s.playlist = [] then (none, s, [])
  else
    match s.manualNext with
    | idx :: _ =>
        if (idx : Int) < (s.playlist.length : Int) then (s.playlist[idx]?, s, [])
        else peekNextRest σ shuffle s
    | [] => peekNextRest σ shuffle s

/-- The shuffle/linear advancement of `next` (reached when the manual queue is
empty, or after an out-of-range manual head was popped). -/
def nextAdvance (σ : List Nat → List Nat) (shuffle : Bool)
    (s : PlayerState) : PlayerState × List PEvent :=
  let r :=
    if shuffle then
      let ra := if s.upcoming = [] then rebuild_upcoming σ true s else (s, [])
      let sa := ra.1
      match sa.upcoming with
      | u :: urest =>
          let sb := if ValidIndex sa
                    then { sa with history := sa.history ++ [sa.index.toNat] }
                    else sa
          ({ sb with index := (u : Int), upcoming := urest }, ra.2)
      | [] => (sa, ra.2)
    else
      ({ s with index :=
          if s.index < (s.playlist.length : Int) - 1 then s.index + 1 else 0 },
       [])
  let s1 := r.1
  let ev2 := load_current s1
  let r3 := rebuild_upcoming σ shuffle s1
  (r3.1, r.2 ++ ev2 ++ r3.2)

/-- `AudioPlayer.next`.  Manual-override branch first: pop the front of
`manual_next`; if the popped index is in range it becomes current and the
function returns (rebuilding upcoming only when shuffling with both queues
empty); an out-of-range popped index falls through to the normal
shuffle/linear advancement. -/
def next (σ : List Nat → List Nat) (shuffle : Bool) (s : PlayerState) :
    PlayerState × List PEvent :=
  if s.playlist = [] then (s, [])
  else
    match s.manualNext with
    | idx :: rest =>
        if (idx : Int) < (s.playlist.length : Int) then
          let s1 := { s with manualNext := rest, index := (idx : Int) }
          let ev1 := load_current s1
          let r2 := if shuffle && rest.isEmpty && s1.upcoming.isEmpty
                    then rebuild_upcoming σ true s1 else (s1, [])
          (r2.1, ev1 ++ r2.2 ++ [PEvent.upcomingChanged])
        else
          nextAdvance σ shuffle { s with manualNext := rest }
    | [] => nextAdvance σ shuffle s

/-- `AudioPlayer.previous`: shuffle with non-empty history pops the stack,
otherwise `(index - 1) mod len(playlist)`; then reload and rebuild. -/
def previous (σ : List Nat → List Nat) (shuffle : Bool) (s : PlayerState) :
    PlayerState × List PEvent :=
  if s.playlist = [] then (s, [])
  else
    let s1 :=
      if shuffle ∧ s.history ≠ [] then
        { s with index := ((s.history.getLastD 0 : Nat) : Int),
                 history := s.history.dropLast }
      else
        { s with index := (s.index - 1) % (s.playlist.length : Int) }
    let ev1 := load_current s1
    let r2 := rebuild_upcoming σ shuffle s1
    (r2.1, ev1 ++ r2.2)

/-- `AudioPlayer.clear`. -/
def clear (s : PlayerState) : PlayerState × List PEvent :=
  ({ s with playlist := [], index := -1, history := [], upcoming := [],
            manualNext := [] },
   [PEvent.upcomingChanged])

/-- `AudioPlayer.add_files`: extend the playlist; if nothing was selected and
the playlist is now non-empty, select index 0 and load it. -/
def add_files (paths : List String) (s : PlayerState) :
    PlayerState × List PEvent :=
  let s1 := { s with playlist := s.playlist ++ paths }
  if s1.index = -1 ∧ s1.playlist ≠ [] then
    let s2 := { s1 with index := 0 }
    (s2, load_current s2)
  else (s1, [])

/-- `AudioPlayer.set_playlist`: replace the playlist; empty input leaves
`index = -1` and returns early (upcoming and history are NOT touched);
otherwise clamp `start_index` into range, load, and rebuild upcoming with the
last known shuffle mode. -/
def set_playlist (σ : List Nat → List Nat) (paths : List String)
    (startIndex : Int) (s : PlayerState) : PlayerState × List PEvent :=
  let s1 := { s with playlist := paths }
  if s1.playlist = [] then ({ s1 with index := -1 }, [])
  else
    let s2 := { s1 with
      index := max 0 (min startIndex ((paths.length : Int) - 1)) }
    let ev1 := load_current s2
    let r2 := rebuild_upcoming σ s2.lastShuffle s2
    (r2.1, ev1 ++ r2.2)

/-- The public operations of the engine, with an explicit shuffler wherever
the corresponding method can reach `random.shuffle`. -/
inductive Op where
  | setPlaylist (σ : List Nat → List Nat) (paths : List String) (startIndex : Int)
  | addFiles (paths : List String)
  | clearOp
  | nextOp (σ : List Nat → List Nat) (shuffle : Bool)
  | previousOp (σ : List Nat → List Nat) (shuffle : Bool)
  | addToUpcoming (paths : List String)
  | addPlayNext (paths : List String)
  | removeUpcoming (position : Int)
  | clearUpcoming
  | rebuildUpcoming (σ : List Nat → List Nat) (shuffle : Bool)
  | peekNext (σ : List Nat → List Nat) (shuffle : Bool)

/-- Interpretation of an operation on the state. -/
def Op.apply : Op → PlayerState → PlayerState × List PEvent
  | .setPlaylist σ paths k, s => set_playlist σ paths k s
  | .addFiles paths, s => add_files paths s
  | .clearOp, s => clear s
  | .nextOp σ sh, s => next σ sh s
  | .previousOp σ sh, s => previous σ sh s
  | .addToUpcoming paths, s => add_to_upcoming paths s
  | .addPlayNext paths, s => add_play_next paths s
  | .removeUpcoming pos, s => remove_upcoming pos s
  | .clearUpcoming, s => clear_upcoming s
  | .rebuildUpcoming σ sh, s => rebuild_upcoming σ sh s
  | .peekNext σ sh, s => (peek_next σ sh s).2

/-- A shuffler standing in for `random.shuffle`: it may reorder its input
arbitrarily but must produce a permutation of it. -/
def GoodShuffler (σ : List Nat → List Nat) : Prop :=
  ∀ l : List Nat, List.Perm (σ l) l

/-- All shufflers carried by an operation are permutations. -/
def Op.Good : Op → Prop
  | .setPlaylist σ _ _ => GoodShuffler σ
  | .nextOp σ _ => GoodShuffler σ
  | .previousOp σ _ => GoodShuffler σ
  | .rebuildUpcoming σ _ => GoodShuffler σ
  | .peekNext σ _ => GoodShuffler σ
  | _ => True

/-- Invariant parts -/
def UpBounds (s : PlayerState) : Prop := ∀ i ∈ s.upcoming, i < s.playlist.length

def HistBounds (s : PlayerState) : Prop := ∀ i ∈ s.history, i < s.playlist.length

def CursorInv (s : PlayerState) : Prop :=
  (s.playlist ≠ [] → ValidIndex s) ∧ (s.index = -1 ↔ s.playlist = [])

def StateInv (s : PlayerState) : Prop := CursorInv s ∧ UpBounds s ∧ HistBounds s

def UpcomingInv (s : PlayerState) : Prop :=
  s.upcoming.Nodup ∧ ∀ i ∈ s.upcoming, (i : Int) ≠ s.index

instance (s : PlayerState) : Decidable (CursorInv s) := by
  unfold CursorInv; infer_instance

instance (s : PlayerState) : Decidable (UpBounds s) := by
  unfold UpBounds; infer_instance

instance (s : PlayerState) : Decidable (HistBounds s) := by
  unfold HistBounds; infer_instance

instance (s : PlayerState) : Decidable (StateInv s) := by
  unfold StateInv; infer_instance

instance (s : PlayerState) : Decidable (UpcomingInv s) := by
  unfold UpcomingInv; infer_instance

/-- Side conditions under which each operation provably preserves the full
cursor/bounds invariant (the counterexample shows the unrestricted claim is
false). -/
abbrev C1ok : Op → PlayerState → Prop
  | .setPlaylist _ paths _, s =>
      (paths = [] → s.upcoming = [] ∧ s.history = []) ∧
      (paths ≠ [] → ∀ i ∈ s.history, i < paths.length)
  | .addToUpcoming paths, s => s.playlist ≠ [] ∨ paths = []
  | .addPlayNext paths, s => s.playlist ≠ [] ∨ paths = []
  | _, _ => True

/-- Side conditions under which each operation provably preserves the
upcoming-list invariant of C2. -/
abbrev C2ok : Op → PlayerState → Prop
  | .nextOp _ _, s => s.manualNext = []
  | .addFiles _, s => s.index = -1 → s.upcoming = []
  | _, _ => True

/-- Side condition for C10: replacing the playlist by an empty one strands
the old upcoming indices. -/
abbrev C10ok : Op → PlayerState → Prop
  | .setPlaylist _ paths _, s => paths ≠ [] ∨ s.upcoming = []
  | _, _ => True


lemma toNat_lt_of_valid {s : PlayerState} (h : ValidIndex s) :
    s.index.toNat < s.playlist.length := by
  rcases h with ⟨h1, h2⟩; omega

lemma rebuild_frame (σ : List Nat → List Nat) (sh : Bool) (s : PlayerState) :
    (rebuild_upcoming σ sh s).1.playlist = s.playlist ∧
    (rebuild_upcoming σ sh s).1.index = s.index ∧
    (rebuild_upcoming σ sh s).1.history = s.history ∧
    (rebuild_upcoming σ sh s).1.manualNext = s.manualNext := by
  unfold rebuild_upcoming
  split <;> simp

lemma rebuild_mem (σ : List Nat → List Nat) (sh : Bool) (s : PlayerState)
    (hσ : GoodShuffler σ) :
    ∀ i ∈ (rebuild_upcoming σ sh s).1.upcoming,
      i < s.playlist.length ∧ (i : Int) ≠ s.index := by
  unfold rebuild_upcoming
  split
  · simp
  · rename_i hg
    have hv : ValidIndex s := by
      by_contra hc
      exact hg (Or.inr hc)
    rcases hv with ⟨hv0, hv1⟩
    simp only
    intro i hi
    by_cases hsh : sh = true
    · subst hsh
      simp only [if_pos rfl] at hi
      have hi2 := (hσ _).mem_iff.mp hi
      simp only [List.mem_filter, List.mem_range, decide_eq_true_eq] at hi2
      exact ⟨hi2.1, hi2.2⟩
    · simp only [Bool.not_eq_true] at hsh
      subst hsh
      simp only [Bool.false_eq_true, if_false] at hi
      rw [List.mem_range'] at hi
      constructor
      · omega
      · omega

lemma rebuild_nodup (σ : List Nat → List Nat) (sh : Bool) (s : PlayerState)
    (hσ : GoodShuffler σ) :
    (rebuild_upcoming σ sh s).1.upcoming.Nodup := by
  unfold rebuild_upcoming
  split
  · simp
  · simp only
    by_cases hsh : sh = true
    · subst hsh
      simp only [if_pos rfl]
      exact ((hσ _).nodup_iff).mpr ((List.nodup_range _).filter _)
    · simp only [Bool.not_eq_true] at hsh
      subst hsh
      simp only [Bool.false_eq_true, if_false]
      exact List.nodup_range' _ _

lemma rebuild_nonempty (σ : List Nat → List Nat) (s : PlayerState)
    (hσ : GoodShuffler σ) (hv : ValidIndex s) (h2 : 2 ≤ s.playlist.length) :
    (rebuild_upcoming σ true s).1.upcoming ≠ [] := by
  unfold rebuild_upcoming
  have hne : s.playlist ≠ [] := by
    intro h; rw [h] at h2; simp at h2
  rw [if_neg (by push_neg; exact ⟨hne, hv⟩)]
  simp only [if_pos rfl]
  rcases hv with ⟨hv0, hv1⟩
  have hwit : ∃ j : Nat, j < s.playlist.length ∧ (j : Int) ≠ s.index := by
    by_cases h0 : s.index = 0
    · exact ⟨1, by omega, by omega⟩
    · exact ⟨0, by omega, by omega⟩
  rcases hwit with ⟨j, hj1, hj2⟩
  have hmem : j ∈ (List.range s.playlist.length).filter
      (fun i : Nat => ((i : Int) ≠ s.index)) := by
    simp only [List.mem_filter, List.mem_range, decide_eq_true_eq]
    exact ⟨hj1, hj2⟩
  have hmem2 : j ∈ σ ((List.range s.playlist.length).filter
      (fun i : Nat => ((i : Int) ≠ s.index))) := (hσ _).mem_iff.mpr hmem
  simp only [ne_eq]
  exact List.ne_nil_of_mem hmem2

lemma current_track_valid {s : PlayerState} (h : ValidIndex s) :
    current_track s = some (s.playlist.get ⟨s.index.toNat, toNat_lt_of_valid h⟩) := by
  unfold current_track
  rw [if_pos h]
  exact List.getElem?_eq_getElem _

lemma current_track_invalid {s : PlayerState} (h : ¬ ValidIndex s) :
    current_track s = none := by
  unfold current_track
  rw [if_neg h]

lemma current_track_isSome_iff {s : PlayerState} :
    (current_track s).isSome ↔ ValidIndex s := by
  by_cases h : ValidIndex s
  · rw [current_track_valid h]; simp [h]
  · rw [current_track_invalid h]; simp [h]

lemma current_track_append (s : PlayerState) (l : List String)
    (h : s.index < (s.playlist.length : Int)) :
    current_track { s with playlist := s.playlist ++ l } = current_track s := by
  by_cases hv : ValidIndex s
  · have hv2 : ValidIndex { s with playlist := s.playlist ++ l } := by
      rcases hv with ⟨h1, h2⟩
      constructor
      · exact h1
      · simp only [List.length_append]; omega
    rw [current_track_valid hv, current_track_valid hv2]
    simp only [Option.some.injEq]
    rw [List.get_eq_getElem, List.get_eq_getElem]
    exact List.getElem_append_left _
  · have hv2 : ¬ ValidIndex { s with playlist := s.playlist ++ l } := by
      unfold ValidIndex at hv ⊢
      simp only [List.length_append] at *
      omega
    rw [current_track_invalid hv, current_track_invalid hv2]

lemma resolve_path_spec (s : PlayerState) (p : String) :
    (resolve_path s p).1.index = s.index ∧
    (resolve_path s p).1.history = s.history ∧
    (resolve_path s p).1.upcoming = s.upcoming ∧
    (resolve_path s p).1.manualNext = s.manualNext ∧
    s.playlist.length ≤ (resolve_path s p).1.playlist.length ∧
    (∀ j, j < s.playlist.length →
        (resolve_path s p).1.playlist[j]? = s.playlist[j]?) ∧
    (resolve_path s p).2 < (resolve_path s p).1.playlist.length ∧
    (resolve_path s p).1.playlist[(resolve_path s p).2]? = some p := by
  unfold resolve_path
  split
  · rename_i hmem
    refine ⟨rfl, rfl, rfl, rfl, le_refl _, fun j _ => rfl, ?_, ?_⟩
    · exact List.indexOf_lt_length.mpr hmem
    · rw [List.getElem?_eq_getElem (List.indexOf_lt_length.mpr hmem)]
      rw [List.getElem_indexOf]
  · refine ⟨rfl, rfl, rfl, rfl, ?_, ?_, ?_, ?_⟩
    · simp
    · intro j hj
      simp only
      rw [List.getElem?_append, if_pos hj]
    · simp
    · simp only
      rw [List.getElem?_concat_length]

lemma addToUpcomingStep_spec (s : PlayerState) (b : Bool) (p : String) :
    (addToUpcomingStep (s, b) p).1.index = s.index ∧
    (addToUpcomingStep (s, b) p).1.history = s.history ∧
    (addToUpcomingStep (s, b) p).1.manualNext = s.manualNext ∧
    s.playlist.length ≤ (addToUpcomingStep (s, b) p).1.playlist.length ∧
    (∀ j, j < s.playlist.length →
        (addToUpcomingStep (s, b) p).1.playlist[j]? = s.playlist[j]?) ∧
    ((addToUpcomingStep (s, b) p).1.upcoming = s.upcoming ∨
     ∃ i, i < (addToUpcomingStep (s, b) p).1.playlist.length ∧
       (i : Int) ≠ s.index ∧ i ∉ s.upcoming ∧
       (addToUpcomingStep (s, b) p).1.upcoming = s.upcoming ++ [i]) := by
  unfold addToUpcomingStep
  obtain ⟨h1, h2, h3, h4, h5, h6, h7, h8⟩ := resolve_path_spec s p
  split
  · exact ⟨rfl, rfl, rfl, le_refl _, fun j _ => rfl, Or.inl rfl⟩
  · simp only
    split
    · exact ⟨h1, h2, h4, h5, h6, Or.inl h3⟩
    · split
      · exact ⟨h1, h2, h4, h5, h6, Or.inl h3⟩
      · rename_i hne hmem
        refine ⟨h1, h2, h4, h5, h6, Or.inr ⟨(resolve_path s p).2, h7, ?_, ?_, ?_⟩⟩
        · rw [h1] at hne; exact hne
        · rw [h3] at hmem; exact hmem
        · rw [h3]

lemma addPlayNextStep_spec (s : PlayerState) (acc : List Nat) (p : String) :
    (addPlayNextStep (s, acc) p).1.index = s.index ∧
    (addPlayNextStep (s, acc) p).1.history = s.history ∧
    (addPlayNextStep (s, acc) p).1.manualNext = s.manualNext ∧
    (addPlayNextStep (s, acc) p).1.upcoming = s.upcoming ∧
    s.playlist.length ≤ (addPlayNextStep (s, acc) p).1.playlist.length ∧
    (∀ j, j < s.playlist.length →
        (addPlayNextStep (s, acc) p).1.playlist[j]? = s.playlist[j]?) := by
  unfold addPlayNextStep
  obtain ⟨h1, h2, h3, h4, h5, h6, h7, h8⟩ := resolve_path_spec s p
  split
  · exact ⟨rfl, rfl, rfl, rfl, le_refl _, fun j _ => rfl⟩
  · simp only
    split
    · exact ⟨h1, h2, h4, h3, h5, h6⟩
    · split
      · exact ⟨h1, h2, h4, h3, h5, h6⟩
      · exact ⟨h1, h2, h4, h3, h5, h6⟩

/-- Fold a state-only invariant through a loop with a paired accumulator. -/
lemma foldl_pair_inv {β γ : Type} (f : PlayerState × β → γ → PlayerState × β)
    (P : PlayerState → Prop)
    (hstep : ∀ s b a, P s → P (f (s, b) a).1) :
    ∀ (l : List γ) (s : PlayerState) (b : β), P s → P (l.foldl f (s, b)).1 := by
  intro l
  induction l with
  | nil => intro s b h; exact h
  | cons a t ih =>
      intro s b h
      have h2 := hstep s b a h
      have : f (s, b) a = ((f (s, b) a).1, (f (s, b) a).2) := rfl
      rw [List.foldl_cons, this]
      exact ih _ _ h2

lemma current_track_congr {s s' : PlayerState} (hp : s'.playlist = s.playlist)
    (hi : s'.index = s.index) : current_track s' = current_track s := by
  unfold current_track ValidIndex
  simp only [hp, hi]

lemma validIndex_congr {s s' : PlayerState} (hp : s'.playlist = s.playlist)
    (hi : s'.index = s.index) : ValidIndex s' ↔ ValidIndex s := by
  unfold ValidIndex
  rw [hp, hi]

lemma peekNextRest_frame (σ : List Nat → List Nat) (sh : Bool)
    (s : PlayerState) :
    (peekNextRest σ sh s).2.1.playlist = s.playlist ∧
    (peekNextRest σ sh s).2.1.index = s.index ∧
    (peekNextRest σ sh s).2.1.history = s.history ∧
    (peekNextRest σ sh s).2.1.manualNext = s.manualNext ∧
    ((peekNextRest σ sh s).2.1.upcoming ≠ s.upcoming →
      sh = true ∧ s.upcoming = []) := by
  unfold peekNextRest
  dsimp only
  by_cases hsh : sh = true
  · subst hsh
    rw [if_pos rfl]
    by_cases hup : s.upcoming = []
    · rw [if_pos hup]
      obtain ⟨f1, f2, f3, f4⟩ := rebuild_frame σ true s
      split
      · exact ⟨f1, f2, f3, f4, fun _ => ⟨rfl, hup⟩⟩
      · exact ⟨f1, f2, f3, f4, fun _ => ⟨rfl, hup⟩⟩
    · rw [if_neg hup]
      split
      · exact ⟨rfl, rfl, rfl, rfl, fun h => absurd rfl h⟩
      · exact ⟨rfl, rfl, rfl, rfl, fun h => absurd rfl h⟩
  · simp only [Bool.not_eq_true] at hsh
    subst hsh
    simp only [Bool.false_eq_true, if_false]
    split
    · exact ⟨rfl, rfl, rfl, rfl, fun h => absurd rfl h⟩
    · exact ⟨rfl, rfl, rfl, rfl, fun h => absurd rfl h⟩

lemma peek_next_frame (σ : List Nat → List Nat) (sh : Bool) (s : PlayerState) :
    (peek_next σ sh s).2.1.playlist = s.playlist ∧
    (peek_next σ sh s).2.1.index = s.index ∧
    (peek_next σ sh s).2.1.history = s.history ∧
    (peek_next σ sh s).2.1.manualNext = s.manualNext ∧
    ((peek_next σ sh s).2.1.upcoming ≠ s.upcoming →
      sh = true ∧ s.upcoming = []) := by
  unfold peek_next
  split
  · exact ⟨rfl, rfl, rfl, rfl, fun h => absurd rfl h⟩
  · split
    · split
      · exact ⟨rfl, rfl, rfl, rfl, fun h => absurd rfl h⟩
      · exact peekNextRest_frame σ sh s
    · exact peekNextRest_frame σ sh s

lemma set_playlist_frame (σ : List Nat → List Nat) (paths : List String)
    (k : Int) (s : PlayerState) :
    (set_playlist σ paths k s).1.history = s.history ∧
    (set_playlist σ paths k s).1.manualNext = s.manualNext := by
  unfold set_playlist
  dsimp only
  split
  · exact ⟨rfl, rfl⟩
  · obtain ⟨_, _, f3, f4⟩ := rebuild_frame σ s.lastShuffle _
    exact ⟨f3, f4⟩

lemma rebuild_events (σ : List Nat → List Nat) (sh : Bool) (s : PlayerState) :
    (rebuild_upcoming σ sh s).2 = [PEvent.upcomingChanged] := by
  unfold rebuild_upcoming
  split <;> rfl

lemma next_eq_advance (σ : List Nat → List Nat) (sh : Bool) (s : PlayerState)
    (hne : s.playlist ≠ []) (hm : s.manualNext = []) :
    next σ sh s = nextAdvance σ sh s := by
  unfold next
  rw [if_neg hne, hm]

lemma nextAdvance_linear_fields (σ : List Nat → List Nat) (s : PlayerState) :
    (nextAdvance σ false s).1.index =
      (if s.index < (s.playlist.length : Int) - 1 then s.index + 1 else 0) ∧
    (nextAdvance σ false s).1.playlist = s.playlist ∧
    (nextAdvance σ false s).1.history = s.history ∧
    (nextAdvance σ false s).1.manualNext = s.manualNext ∧
    (nextAdvance σ false s).2 =
      load_current { s with index :=
        (if s.index < (s.playlist.length : Int) - 1 then s.index + 1 else 0) }
        ++ [PEvent.upcomingChanged] := by
  unfold nextAdvance
  dsimp only
  simp only [Bool.false_eq_true, if_false]
  obtain ⟨f1, f2, f3, f4⟩ := rebuild_frame σ false
    { s with index := if s.index < (s.playlist.length : Int) - 1
                      then s.index + 1 else 0 }
  refine ⟨by rw [f2], by rw [f1], by rw [f3], by rw [f4], ?_⟩
  rw [rebuild_events]
  simp

lemma nextAdvance_shuffle_fields (σ : List Nat → List Nat) (s : PlayerState)
    (hσ : GoodShuffler σ) (hv : ValidIndex s) (h2 : 2 ≤ s.playlist.length) :
    (nextAdvance σ true s).1.history = s.history ++ [s.index.toNat] ∧
    (nextAdvance σ true s).1.playlist = s.playlist := by
  unfold nextAdvance
  dsimp only
  simp only [if_true]
  by_cases hup : s.upcoming = []
  · rw [if_pos hup]
    have hne := rebuild_nonempty σ s hσ hv h2
    obtain ⟨f1, f2, f3, f4⟩ := rebuild_frame σ true s
    split
    · rename_i u urest hequ
      have hvsa : ValidIndex (rebuild_upcoming σ true s).1 :=
        (validIndex_congr f1 f2).mpr hv
      rw [if_pos hvsa]
      have key : ({ (rebuild_upcoming σ true s).1 with
            history := (rebuild_upcoming σ true s).1.history ++
              [(rebuild_upcoming σ true s).1.index.toNat] } : PlayerState).history
          = s.history ++ [s.index.toNat] := by
        simp only [f2, f3]
      constructor
      · obtain ⟨g1, g2, g3, g4⟩ := rebuild_frame σ true _
        rw [g3]
        exact key
      · obtain ⟨g1, g2, g3, g4⟩ := rebuild_frame σ true _
        rw [g1]
        exact f1
    · rename_i hequ
      exact absurd hequ hne
  · rw [if_neg hup]
    split
    · rename_i u urest hequ
      rw [if_pos hv]
      constructor
      · obtain ⟨g1, g2, g3, g4⟩ := rebuild_frame σ true _
        rw [g3]
      · obtain ⟨g1, g2, g3, g4⟩ := rebuild_frame σ true _
        rw [g1]
    · rename_i hequ
      exact absurd hequ hup

lemma int_one_le_len {s : PlayerState} (hne : s.playlist ≠ []) :
    1 ≤ (s.playlist.length : Int) := by
  have := List.length_pos.mpr hne
  omega

/-- C4: in shuffle mode with an empty manual queue, from a valid current
index on a playlist of at least two tracks, `next(shuffle=True)` pushes the
old index onto the history stack and `previous(shuffle=True)` pops exactly
that entry and restores the current index. -/
theorem C4_shuffle_round_trip (σ σ' : List Nat → List Nat) (s : PlayerState)
    (hσ : GoodShuffler σ) (hv : ValidIndex s) (h2 : 2 ≤ s.playlist.length)
    (hm : s.manualNext = []) :
    (next σ true s).1.history = s.history ++ [s.index.toNat] ∧
    (previous σ' true (next σ true s).1).1.index = s.index ∧
    (previous σ' true (next σ true s).1).1.history = s.history := by
  have hne : s.playlist ≠ [] := by
    intro h; rw [h] at h2; simp at h2
  rw [next_eq_advance σ true s hne hm]
  obtain ⟨ha1, ha2⟩ := nextAdvance_shuffle_fields σ s hσ hv h2
  refine ⟨ha1, ?_, ?_⟩
  · unfold previous
    rw [if_neg (by rw [ha2]; exact hne)]
    dsimp only
    rw [if_pos ⟨rfl, by rw [ha1]; simp⟩]
    obtain ⟨g1, g2, g3, g4⟩ := rebuild_frame σ' true _
    rw [g2]
    dsimp only
    rw [ha1, List.getLastD_concat]
    exact Int.toNat_of_nonneg hv.1
  · unfold previous
    rw [if_neg (by rw [ha2]; exact hne)]
    dsimp only
    rw [if_pos ⟨rfl, by rw [ha1]; simp⟩]
    obtain ⟨g1, g2, g3, g4⟩ := rebuild_frame σ' true _
    rw [g3]
    dsimp only
    rw [ha1, List.dropLast_concat]

/-- C5: with an empty manual queue and a valid current index,
`next(shuffle=False)` advances the index to `current + 1`, wrapping to 0
exactly when `current + 1` equals the playlist length. -/
theorem C5_linear_advance (σ : List Nat → List Nat) (s : PlayerState)
    (hne : s.playlist ≠ []) (hm : s.manualNext = [])
    (h0 : 0 ≤ s.index) (h1 : s.index < (s.playlist.length : Int)) :
    (next σ false s).1.index =
      (if s.index + 1 = (s.playlist.length : Int) then 0 else s.index + 1) := by
  rw [next_eq_advance σ false s hne hm]
  obtain ⟨f1, f2, f3, f4, f5⟩ := nextAdvance_linear_fields σ s
  rw [f1]
  have hlen := int_one_le_len hne
  by_cases hc : s.index + 1 = (s.playlist.length : Int)
  · rw [if_pos hc, if_neg (by omega)]
  · rw [if_neg hc, if_pos (by omega)]

/-- C6: on a single-track playlist with an empty manual queue,
`peek_next(shuffle=False)` returns none while `next(shuffle=False)` leaves
the same track current and still emits a track-changed event for it. -/
theorem C6_single_track (p : String) (σ σ' : List Nat → List Nat)
    (s : PlayerState) (hp : s.playlist = [p]) (hi : s.index = 0)
    (hm : s.manualNext = []) :
    (peek_next σ false s).1 = none ∧
    (next σ' false s).1.index = 0 ∧
    current_track (next σ' false s).1 = some p ∧
    PEvent.trackChanged p ∈ (next σ' false s).2 := by
  have hne : s.playlist ≠ [] := by rw [hp]; simp
  have hlen : s.playlist.length = 1 := by rw [hp]; rfl
  have hcond : ¬ (s.index < (s.playlist.length : Int) - 1) := by
    rw [hlen, hi]; norm_num
  have hpeek : (peek_next σ false s).1 = none := by
    unfold peek_next
    rw [if_neg hne, hm]
    unfold peekNextRest
    simp only [Bool.false_eq_true, if_false]
    rw [if_pos (by rw [hlen])]
  rw [next_eq_advance σ' false s hne hm]
  obtain ⟨f1, f2, f3, f4, f5⟩ := nextAdvance_linear_fields σ' s
  have hidx : (nextAdvance σ' false s).1.index = 0 := by
    rw [f1, if_neg hcond]
  have hload : load_current { s with index :=
      (if s.index < (s.playlist.length : Int) - 1 then s.index + 1 else 0) } =
      [PEvent.trackChanged p] := by
    rw [if_neg hcond]
    unfold load_current current_track
    rw [if_pos (by constructor <;> simp [hlen])]
    dsimp only
    rw [hp]
    rfl
  refine ⟨hpeek, hidx, ?_, ?_⟩
  · unfold current_track
    rw [if_pos (by constructor <;> simp [hidx, f2, hlen] )]
    rw [hidx, f2, hp]
    rfl
  · rw [f5, hload]
    simp

/-- C7: `add_play_next([X])` where X is the current track is a complete
no-op: the state (hence the manual queue) is unchanged and no event, in
particular no upcoming-changed notification, is emitted. -/
theorem C7_play_next_current_noop (s : PlayerState) (X : String)
    (h : current_track s = some X) :
    (add_play_next [X] s).1 = s ∧ (add_play_next [X] s).2 = [] := by
  have hstep : addPlayNextStep (s, ([] : List Nat)) X = (s, []) := by
    unfold addPlayNextStep
    rw [if_pos h]
  have hfold : List.foldl addPlayNextStep (s, ([] : List Nat)) [X] = (s, []) := by
    rw [List.foldl_cons, hstep, List.foldl_nil]
  constructor
  · unfold add_play_next
    rw [hfold]
    rfl
  · unfold add_play_next
    rw [hfold]
    rfl

/-- C8: `peek_next` never changes the playlist, current index, history or
manual queue, and it changes the upcoming list only when peeking in shuffle
mode with an empty upcoming list (the read-through rebuild). -/
theorem C8_peek_next_is_pure (σ : List Nat → List Nat) (sh : Bool)
    (s : PlayerState) :
    (peek_next σ sh s).2.1.playlist = s.playlist ∧
    (peek_next σ sh s).2.1.index = s.index ∧
    (peek_next σ sh s).2.1.history = s.history ∧
    (peek_next σ sh s).2.1.manualNext = s.manualNext ∧
    ((peek_next σ sh s).2.1.upcoming ≠ s.upcoming →
      sh = true ∧ s.upcoming = []) :=
  peek_next_frame σ sh s

/-- C9: `set_playlist` leaves the history stack and the manual-next queue
exactly as they were, for every input and prior state. -/
theorem C9_set_playlist_keeps_history_and_manual (σ : List Nat → List Nat)
    (paths : List String) (k : Int) (s : PlayerState) :
    (set_playlist σ paths k s).1.history = s.history ∧
    (set_playlist σ paths k s).1.manualNext = s.manualNext :=
  set_playlist_frame σ paths k s

lemma resolve_ne_index (s : PlayerState) (p : String)
    (hidx : s.index < (s.playlist.length : Int))
    (hp : current_track s ≠ some p) :
    ((resolve_path s p).2 : Int) ≠ (resolve_path s p).1.index := by
  unfold resolve_path
  split
  · rename_i hmem
    dsimp only
    intro hcon
    have hlt : s.playlist.indexOf p < s.playlist.length :=
      List.indexOf_lt_length.mpr hmem
    have hvalid : ValidIndex s := by
      constructor
      · omega
      · omega
    apply hp
    unfold current_track
    rw [if_pos hvalid]
    rw [show s.index.toNat = s.playlist.indexOf p from by omega]
    rw [List.getElem?_eq_getElem hlt]
    simp [List.getElem_indexOf]
  · dsimp only
    intro hcon
    rw [← hcon] at hidx
    exact absurd hidx (lt_irrefl _)

lemma current_track_resolve (s : PlayerState) (p : String)
    (hidx : s.index < (s.playlist.length : Int)) :
    current_track (resolve_path s p).1 = current_track s ∧
    (resolve_path s p).1.index < ((resolve_path s p).1.playlist.length : Int) := by
  unfold resolve_path
  split
  · exact ⟨rfl, hidx⟩
  · dsimp only
    constructor
    · exact current_track_append s [p] hidx
    · simp only [List.length_append, List.length_cons, List.length_nil]
      push_cast
      omega

lemma next_manual_pop (σ : List Nat → List Nat) (sh : Bool) (t : PlayerState)
    (i : Nat) (rest : List Nat) (hmt : t.manualNext = i :: rest)
    (hi : i < t.playlist.length) :
    (next σ sh t).1.playlist = t.playlist ∧
    (next σ sh t).1.index = (i : Int) ∧
    (next σ sh t).1.manualNext = rest ∧
    current_track (next σ sh t).1 = t.playlist[i]? := by
  have hne : t.playlist ≠ [] := by
    intro h; rw [h] at hi; simp at hi
  have hcur : current_track { t with manualNext := rest, index := (i : Int) } =
      t.playlist[i]? := by
    unfold current_track
    rw [if_pos (by constructor <;> simp <;> omega)]
    simp
  unfold next
  rw [if_neg hne, hmt]
  dsimp only
  rw [if_pos (by exact_mod_cast hi)]
  split
  · obtain ⟨g1, g2, g3, g4⟩ := rebuild_frame σ true
      { t with manualNext := rest, index := (i : Int) }
    refine ⟨by rw [g1], by rw [g2], by rw [g4], ?_⟩
    rw [current_track_congr g1 g2]
    exact hcur
  · exact ⟨rfl, rfl, rfl, hcur⟩

lemma add_play_next_two (s : PlayerState) (X Y : String)
    (hm : s.manualNext = []) (hidx : s.index < (s.playlist.length : Int))
    (hXY : X ≠ Y) (hX : current_track s ≠ some X)
    (hY : current_track s ≠ some Y) :
    ∃ (t : PlayerState) (iX iY : Nat),
      (add_play_next [X, Y] s).1 = { t with manualNext := [iX, iY] } ∧
      t.manualNext = [] ∧
      iX < t.playlist.length ∧ iY < t.playlist.length ∧
      t.playlist[iX]? = some X ∧ t.playlist[iY]? = some Y := by
  obtain ⟨x1, x2, x3, x4, x5, x6, x7, x8⟩ := resolve_path_spec s X
  obtain ⟨xc, xlt⟩ := current_track_resolve s X hidx
  have hneX := resolve_ne_index s X hidx hX
  have hstep1 : addPlayNextStep (s, ([] : List Nat)) X =
      ((resolve_path s X).1, [(resolve_path s X).2]) := by
    unfold addPlayNextStep
    rw [if_neg hX]
    dsimp only
    rw [if_neg hneX]
    rw [if_neg (by simp [x4, hm])]
    simp
  obtain ⟨y1, y2, y3, y4, y5, y6, y7, y8⟩ :=
    resolve_path_spec (resolve_path s X).1 Y
  obtain ⟨yc, ylt⟩ := current_track_resolve (resolve_path s X).1 Y xlt
  have hYX : current_track (resolve_path s X).1 ≠ some Y := by
    rw [xc]; exact hY
  have hneY := resolve_ne_index (resolve_path s X).1 Y xlt hYX
  have hXatY : (resolve_path (resolve_path s X).1 Y).1.playlist[(resolve_path s X).2]?
      = some X := by
    rw [y6 _ x7]
    exact x8
  have hdiff : (resolve_path (resolve_path s X).1 Y).2 ≠ (resolve_path s X).2 := by
    intro hcon
    rw [hcon, hXatY] at y8
    exact hXY (Option.some.inj y8)
  have hstep2 : addPlayNextStep ((resolve_path s X).1, [(resolve_path s X).2]) Y =
      ((resolve_path (resolve_path s X).1 Y).1,
       [(resolve_path s X).2, (resolve_path (resolve_path s X).1 Y).2]) := by
    unfold addPlayNextStep
    rw [if_neg hYX]
    dsimp only
    rw [if_neg hneY]
    rw [if_neg (by simp [y4, x4, hm, hdiff])]
    simp
  have hmanY : (resolve_path (resolve_path s X).1 Y).1.manualNext = [] := by
    rw [y4, x4, hm]
  refine ⟨(resolve_path (resolve_path s X).1 Y).1, (resolve_path s X).2,
          (resolve_path (resolve_path s X).1 Y).2, ?_, hmanY,
          lt_of_lt_of_le x7 y5, y7, hXatY, y8⟩
  unfold add_play_next
  rw [List.foldl_cons, hstep1, List.foldl_cons, hstep2, List.foldl_nil]
  dsimp only
  rw [if_neg (by simp)]
  dsimp only
  rw [hmanY]
  simp

/-- C3: from any state with an empty manual queue and a sane cursor, for
distinct tracks X and Y neither equal to the current track,
`addPlayNext([X, Y])` followed by two `next()` calls (each with either
shuffle setting) makes X current first and then Y, before any shuffle or
linear advancement applies. -/
theorem C3_manual_queue_priority (σ1 σ2 : List Nat → List Nat)
    (sh1 sh2 : Bool) (s : PlayerState) (X Y : String)
    (hm : s.manualNext = []) (hidx : s.index < (s.playlist.length : Int))
    (hXY : X ≠ Y) (hX : current_track s ≠ some X)
    (hY : current_track s ≠ some Y) :
    current_track (next σ1 sh1 (add_play_next [X, Y] s).1).1 = some X ∧
    current_track
      (next σ2 sh2 (next σ1 sh1 (add_play_next [X, Y] s).1).1).1 = some Y := by
  obtain ⟨t, iX, iY, heq, hmt, hiX, hiY, hpX, hpY⟩ :=
    add_play_next_two s X Y hm hidx hXY hX hY
  rw [heq]
  obtain ⟨p1, q1, m1, c1⟩ := next_manual_pop σ1 sh1
    { t with manualNext := [iX, iY] } iX [iY] rfl hiX
  constructor
  · rw [c1]
    exact hpX
  · obtain ⟨p2, q2, m2, c2⟩ := next_manual_pop σ2 sh2
      (next σ1 sh1 { t with manualNext := [iX, iY] }).1 iY [] m1
      (by rw [p1]; exact hiY)
    rw [c2, p1]
    exact hpY

lemma cursorInv_congr {s s' : PlayerState} (hp : s'.playlist = s.playlist)
    (hi : s'.index = s.index) : CursorInv s' ↔ CursorInv s := by
  unfold CursorInv
  rw [hp, hi, validIndex_congr hp hi]

lemma rebuild_UpBounds (σ : List Nat → List Nat) (sh : Bool) (s : PlayerState)
    (hσ : GoodShuffler σ) : UpBounds (rebuild_upcoming σ sh s).1 := by
  intro i hi
  obtain ⟨f1, _, _, _⟩ := rebuild_frame σ sh s
  rw [f1]
  exact (rebuild_mem σ sh s hσ i hi).1

lemma rebuild_UpcomingInv (σ : List Nat → List Nat) (sh : Bool)
    (s : PlayerState) (hσ : GoodShuffler σ) :
    UpcomingInv (rebuild_upcoming σ sh s).1 := by
  obtain ⟨_, f2, _, _⟩ := rebuild_frame σ sh s
  constructor
  · exact rebuild_nodup σ sh s hσ
  · intro i hi
    rw [f2]
    exact (rebuild_mem σ sh s hσ i hi).2

lemma StateInv_rebuild (σ : List Nat → List Nat) (sh : Bool) (s : PlayerState)
    (hσ : GoodShuffler σ) (hc : CursorInv s) (hh : HistBounds s) :
    StateInv (rebuild_upcoming σ sh s).1 := by
  obtain ⟨f1, f2, f3, f4⟩ := rebuild_frame σ sh s
  refine ⟨(cursorInv_congr f1 f2).mpr hc, rebuild_UpBounds σ sh s hσ, ?_⟩
  intro i hi
  rw [f3] at hi
  rw [f1]
  exact hh i hi

lemma mapM_getElem_isSome (pl : List String) :
    ∀ l : List Nat, (∀ i ∈ l, i < pl.length) →
      (l.mapM (fun i => pl[i]?)).isSome := by
  intro l
  induction l with
  | nil => intro _; rfl
  | cons i t ih =>
      intro h
      rw [List.mapM_cons]
      have hi : i < pl.length := h i (List.mem_cons_self i t)
      rw [List.getElem?_eq_getElem hi]
      obtain ⟨r, hr⟩ := Option.isSome_iff_exists.mp
        (ih (fun j hj => h j (List.mem_cons_of_mem i hj)))
      rw [hr]
      rfl

lemma upcoming_tracks_isSome {s : PlayerState} (h : UpBounds s) :
    (upcoming_tracks s).isSome :=
  mapM_getElem_isSome s.playlist s.upcoming h

lemma peek_state_cases (σ : List Nat → List Nat) (sh : Bool) (s : PlayerState) :
    (peek_next σ sh s).2.1 = s ∨
    (peek_next σ sh s).2.1 = (rebuild_upcoming σ true s).1 := by
  unfold peek_next peekNextRest
  dsimp only
  repeat' split
  all_goals first
    | exact Or.inl rfl
    | exact Or.inr rfl

lemma nextAdvance_UpcomingInv (σ : List Nat → List Nat) (sh : Bool)
    (s : PlayerState) (hσ : GoodShuffler σ) :
    UpcomingInv (nextAdvance σ sh s).1 := by
  unfold nextAdvance
  dsimp only
  exact rebuild_UpcomingInv σ sh _ hσ

lemma nextAdvance_UpBounds (σ : List Nat → List Nat) (sh : Bool)
    (s : PlayerState) (hσ : GoodShuffler σ) :
    UpBounds (nextAdvance σ sh s).1 := by
  unfold nextAdvance
  dsimp only
  exact rebuild_UpBounds σ sh _ hσ

lemma nextAdvance_StateInv (σ : List Nat → List Nat) (sh : Bool)
    (s : PlayerState) (hσ : GoodShuffler σ) (h : StateInv s)
    (hne : s.playlist ≠ []) : StateInv (nextAdvance σ sh s).1 := by
  obtain ⟨hc, hu, hh⟩ := h
  have hv : ValidIndex s := hc.1 hne
  have hlen : 0 < s.playlist.length := List.length_pos.mpr hne
  obtain ⟨hv0, hv1⟩ := hv
  unfold nextAdvance
  dsimp only
  by_cases hsh : sh = true
  · subst hsh
    simp only [if_true]
    by_cases hup : s.upcoming = []
    · rw [if_pos hup]
      obtain ⟨f1, f2, f3, f4⟩ := rebuild_frame σ true s
      split
      · rename_i u urest hequ
        have hub : u < s.playlist.length ∧ (u : Int) ≠ s.index := by
          apply rebuild_mem σ true s hσ
          rw [hequ]
          exact List.mem_cons_self _ _
        rw [if_pos ((validIndex_congr f1 f2).mpr ⟨hv0, hv1⟩)]
        apply StateInv_rebuild σ true _ hσ
        · refine ⟨fun _ => ⟨?_, ?_⟩, ?_, ?_⟩
          · show (0 : Int) ≤ (u : Int)
            omega
          · show (u : Int) < _
            dsimp only
            rw [f1]
            exact_mod_cast hub.1
          · intro hcon
            have : ((u : Nat) : Int) = -1 := hcon
            omega
          · intro hcon
            have : (rebuild_upcoming σ true s).1.playlist = [] := hcon
            rw [f1] at this
            exact absurd this hne
        · intro i hi
          have hi2 : i ∈ (rebuild_upcoming σ true s).1.history ++
              [(rebuild_upcoming σ true s).1.index.toNat] := hi
          rw [f3, f2] at hi2
          show i < (rebuild_upcoming σ true s).1.playlist.length
          rw [f1]
          rcases List.mem_append.mp hi2 with h1 | h2
          · exact hh i h1
          · simp only [List.mem_singleton] at h2
            subst h2
            exact toNat_lt_of_valid ⟨hv0, hv1⟩
      · rename_i hequ
        apply StateInv_rebuild σ true _ hσ
        · exact (cursorInv_congr f1 f2).mpr hc
        · intro i hi
          rw [f3] at hi
          show i < (rebuild_upcoming σ true s).1.playlist.length
          rw [f1]
          exact hh i hi
    · rw [if_neg hup]
      dsimp only
      split
      · rename_i u urest hequ
        have hub : u < s.playlist.length := by
          apply hu
          rw [hequ]
          exact List.mem_cons_self _ _
        have hvv : ValidIndex s := ⟨hv0, hv1⟩
        rw [if_pos hvv]
        apply StateInv_rebuild σ true _ hσ
        · refine ⟨fun _ => ⟨?_, ?_⟩, ?_, ?_⟩
          · show (0 : Int) ≤ (u : Int)
            omega
          · show (u : Int) < (s.playlist.length : Int)
            exact_mod_cast hub
          · intro hcon
            have : ((u : Nat) : Int) = -1 := hcon
            omega
          · intro hcon
            have : s.playlist = [] := hcon
            exact absurd this hne
        · intro i hi
          have hi2 : i ∈ s.history ++ [s.index.toNat] := hi
          show i < s.playlist.length
          rcases List.mem_append.mp hi2 with h1 | h2
          · exact hh i h1
          · simp only [List.mem_singleton] at h2
            subst h2
            exact toNat_lt_of_valid ⟨hv0, hv1⟩
      · rename_i hequ
        exact absurd hequ hup
  · simp only [Bool.not_eq_true] at hsh
    subst hsh
    simp only [Bool.false_eq_true, if_false]
    apply StateInv_rebuild σ false _ hσ
    · refine ⟨fun _ => ⟨?_, ?_⟩, ?_, ?_⟩
      · show (0 : Int) ≤
          (if s.index < (s.playlist.length : Int) - 1 then s.index + 1 else 0)
        split <;> omega
      · show (if s.index < (s.playlist.length : Int) - 1 then s.index + 1 else 0)
          < (s.playlist.length : Int)
        split <;> omega
      · intro hcon
        have : (if s.index < (s.playlist.length : Int) - 1 then s.index + 1
            else 0) = -1 := hcon
        split at this <;> omega
      · intro hcon
        have : s.playlist = [] := hcon
        exact absurd this hne
    · intro i hi
      exact hh i hi

lemma getLastD_mem : ∀ (l : List Nat) (d : Nat), l ≠ [] → l.getLastD d ∈ l
  | [], _, h => absurd rfl h
  | [a], _, _ => by simp [List.getLastD]
  | a :: b :: t, d, _ => by
      rw [List.getLastD_cons]
      exact List.mem_cons_of_mem a (getLastD_mem (b :: t) a (by simp))

lemma next_StateInv (σ : List Nat → List Nat) (sh : Bool) (s : PlayerState)
    (hσ : GoodShuffler σ) (h : StateInv s) : StateInv (next σ sh s).1 := by
  by_cases hne : s.playlist = []
  · unfold next
    rw [if_pos hne]
    exact h
  · unfold next
    rw [if_neg hne]
    obtain ⟨hc, hu, hh⟩ := h
    have hv := hc.1 hne
    have hlen : 0 < s.playlist.length := List.length_pos.mpr hne
    cases hmn : s.manualNext with
    | nil =>
        exact nextAdvance_StateInv σ sh s hσ ⟨hc, hu, hh⟩ hne
    | cons idx rest =>
        dsimp only
        split
        · rename_i hidx
          dsimp only
          split
          · apply StateInv_rebuild σ true _ hσ
            · refine ⟨fun _ => ⟨?_, ?_⟩, ?_, ?_⟩
              · show (0 : Int) ≤ (idx : Int)
                omega
              · exact hidx
              · intro hcon
                have : ((idx : Nat) : Int) = -1 := hcon
                omega
              · intro hcon
                have : s.playlist = [] := hcon
                exact absurd this hne
            · intro i hi
              exact hh i hi
          · refine ⟨⟨fun _ => ⟨?_, ?_⟩, ?_, ?_⟩, ?_, ?_⟩
            · show (0 : Int) ≤ (idx : Int)
              omega
            · exact hidx
            · intro hcon
              have : ((idx : Nat) : Int) = -1 := hcon
              omega
            · intro hcon
              have : s.playlist = [] := hcon
              exact absurd this hne
            · intro i hi
              exact hu i hi
            · intro i hi
              exact hh i hi
        · apply nextAdvance_StateInv σ sh _ hσ
          · exact ⟨(cursorInv_congr rfl rfl).mpr hc, hu, hh⟩
          · exact hne

lemma next_UpBounds (σ : List Nat → List Nat) (sh : Bool) (s : PlayerState)
    (hσ : GoodShuffler σ) (h : UpBounds s) : UpBounds (next σ sh s).1 := by
  by_cases hne : s.playlist = []
  · unfold next
    rw [if_pos hne]
    exact h
  · unfold next
    rw [if_neg hne]
    cases hmn : s.manualNext with
    | nil => exact nextAdvance_UpBounds σ sh s hσ
    | cons idx rest =>
        dsimp only
        split
        · dsimp only
          split
          · exact rebuild_UpBounds σ true _ hσ
          · intro i hi
            exact h i hi
        · exact nextAdvance_UpBounds σ sh _ hσ

lemma previous_StateInv (σ : List Nat → List Nat) (sh : Bool) (s : PlayerState)
    (hσ : GoodShuffler σ) (h : StateInv s) : StateInv (previous σ sh s).1 := by
  by_cases hne : s.playlist = []
  · unfold previous
    rw [if_pos hne]
    exact h
  · unfold previous
    rw [if_neg hne]
    obtain ⟨hc, hu, hh⟩ := h
    have hlen : 0 < s.playlist.length := List.length_pos.mpr hne
    dsimp only
    split
    · rename_i hcond
      apply StateInv_rebuild σ sh _ hσ
      · have hmem : s.history.getLastD 0 ∈ s.history :=
          getLastD_mem s.history 0 hcond.2
        have hbd : s.history.getLastD 0 < s.playlist.length := hh _ hmem
        refine ⟨fun _ => ⟨?_, ?_⟩, ?_, ?_⟩
        · show (0 : Int) ≤ ((s.history.getLastD 0 : Nat) : Int)
          omega
        · show ((s.history.getLastD 0 : Nat) : Int) < (s.playlist.length : Int)
          exact_mod_cast hbd
        · intro hcon
          have : ((s.history.getLastD 0 : Nat) : Int) = -1 := hcon
          omega
        · intro hcon
          have : s.playlist = [] := hcon
          exact absurd this hne
      · intro i hi
        have hi2 : i ∈ s.history.dropLast := hi
        exact hh i ((List.dropLast_sublist s.history).subset hi2)
    · apply StateInv_rebuild σ sh _ hσ
      · have h1 : (0 : Int) ≤ (s.index - 1) % (s.playlist.length : Int) :=
          Int.emod_nonneg _ (by omega)
        have h2 : (s.index - 1) % (s.playlist.length : Int) <
            (s.playlist.length : Int) := Int.emod_lt_of_pos _ (by omega)
        refine ⟨fun _ => ⟨h1, h2⟩, ?_, ?_⟩
        · intro hcon
          have : (s.index - 1) % (s.playlist.length : Int) = -1 := hcon
          omega
        · intro hcon
          have : s.playlist = [] := hcon
          exact absurd this hne
      · intro i hi
        exact hh i hi

lemma previous_UpcomingInv (σ : List Nat → List Nat) (sh : Bool)
    (s : PlayerState) (hσ : GoodShuffler σ) (h : UpcomingInv s) :
    UpcomingInv (previous σ sh s).1 := by
  by_cases hne : s.playlist = []
  · unfold previous
    rw [if_pos hne]
    exact h
  · unfold previous
    rw [if_neg hne]
    dsimp only
    exact rebuild_UpcomingInv σ sh _ hσ

lemma previous_UpBounds (σ : List Nat → List Nat) (sh : Bool)
    (s : PlayerState) (hσ : GoodShuffler σ) (h : UpBounds s) :
    UpBounds (previous σ sh s).1 := by
  by_cases hne : s.playlist = []
  · unfold previous
    rw [if_pos hne]
    exact h
  · unfold previous
    rw [if_neg hne]
    dsimp only
    exact rebuild_UpBounds σ sh _ hσ

lemma next_UpcomingInv (σ : List Nat → List Nat) (sh : Bool) (s : PlayerState)
    (hσ : GoodShuffler σ) (h : UpcomingInv s) (hm : s.manualNext = []) :
    UpcomingInv (next σ sh s).1 := by
  by_cases hne : s.playlist = []
  · unfold next
    rw [if_pos hne]
    exact h
  · rw [next_eq_advance σ sh s hne hm]
    exact nextAdvance_UpcomingInv σ sh s hσ

lemma set_playlist_StateInv (σ : List Nat → List Nat) (paths : List String)
    (k : Int) (s : PlayerState) (hσ : GoodShuffler σ)
    (hok1 : paths = [] → s.upcoming = [] ∧ s.history = [])
    (hok2 : paths ≠ [] → ∀ i ∈ s.history, i < paths.length) :
    StateInv (set_playlist σ paths k s).1 := by
  unfold set_playlist
  dsimp only
  split
  · rename_i hp
    have hp2 : paths = [] := hp
    obtain ⟨hu0, hh0⟩ := hok1 hp2
    refine ⟨⟨?_, ?_, ?_⟩, ?_, ?_⟩
    · intro hcon
      exact absurd hp2 hcon
    · intro _
      exact hp2
    · intro _
      rfl
    · intro i hi
      have : i ∈ s.upcoming := hi
      rw [hu0] at this
      simp at this
    · intro i hi
      have : i ∈ s.history := hi
      rw [hh0] at this
      simp at this
  · rename_i hp
    have hp2 : paths ≠ [] := hp
    have hlen : 0 < paths.length := List.length_pos.mpr hp2
    apply StateInv_rebuild σ _ _ hσ
    · refine ⟨fun _ => ⟨?_, ?_⟩, ?_, ?_⟩
      · show (0 : Int) ≤ max 0 (min k ((paths.length : Int) - 1))
        omega
      · show max 0 (min k ((paths.length : Int) - 1)) < (paths.length : Int)
        omega
      · intro hcon
        have : max 0 (min k ((paths.length : Int) - 1)) = -1 := hcon
        omega
      · intro hcon
        have : paths = [] := hcon
        exact absurd this hp2
    · intro i hi
      have : i ∈ s.history := hi
      exact hok2 hp2 i this

lemma set_playlist_UpcomingInv (σ : List Nat → List Nat) (paths : List String)
    (k : Int) (s : PlayerState) (hσ : GoodShuffler σ) (h : UpcomingInv s) :
    UpcomingInv (set_playlist σ paths k s).1 := by
  unfold set_playlist
  dsimp only
  split
  · refine ⟨h.1, ?_⟩
    intro i hi
    have : i ∈ s.upcoming := hi
    show (i : Int) ≠ -1
    omega
  · exact rebuild_UpcomingInv σ _ _ hσ

lemma set_playlist_UpBounds (σ : List Nat → List Nat) (paths : List String)
    (k : Int) (s : PlayerState) (hσ : GoodShuffler σ)
    (hok : paths ≠ [] ∨ s.upcoming = []) :
    UpBounds (set_playlist σ paths k s).1 := by
  unfold set_playlist
  dsimp only
  split
  · rename_i hp
    have hp2 : paths = [] := hp
    intro i hi
    have : i ∈ s.upcoming := hi
    rcases hok with hok | hok
    · exact absurd hp2 hok
    · rw [hok] at this
      simp at this
  · exact rebuild_UpBounds σ _ _ hσ

lemma add_files_StateInv (paths : List String) (s : PlayerState)
    (h : StateInv s) : StateInv (add_files paths s).1 := by
  obtain ⟨hc, hu, hh⟩ := h
  unfold add_files
  dsimp only
  have hgrow : s.playlist.length ≤ (s.playlist ++ paths).length := by
    simp
  split
  · rename_i hcond
    have hne2 : s.playlist ++ paths ≠ [] := hcond.2
    have hlen : 0 < (s.playlist ++ paths).length := List.length_pos.mpr hne2
    refine ⟨⟨fun _ => ⟨?_, ?_⟩, ?_, ?_⟩, ?_, ?_⟩
    · show (0 : Int) ≤ 0
      omega
    · show (0 : Int) < ((s.playlist ++ paths).length : Int)
      omega
    · intro hcon
      have : (0 : Int) = -1 := hcon
      omega
    · intro hcon
      have : s.playlist ++ paths = [] := hcon
      exact absurd this hne2
    · intro i hi
      have h2 := hu i hi
      show i < (s.playlist ++ paths).length
      omega
    · intro i hi
      have h2 := hh i hi
      show i < (s.playlist ++ paths).length
      omega
  · rename_i hcond
    rw [not_and_or] at hcond
    by_cases hne2 : s.playlist ++ paths = []
    · have hps : s.playlist = [] := by
        rcases List.append_eq_nil.mp hne2 with ⟨h1, _⟩
        exact h1
      have hidx : s.index = -1 := hc.2.mpr hps
      refine ⟨⟨?_, ?_, ?_⟩, ?_, ?_⟩
      · intro hcon
        exact absurd hne2 hcon
      · intro _
        exact hne2
      · intro _
        exact hidx
      · intro i hi
        have h2 := hu i hi
        show i < (s.playlist ++ paths).length
        omega
      · intro i hi
        have h2 := hh i hi
        show i < (s.playlist ++ paths).length
        omega
    · have hidx : s.index ≠ -1 := by
        rcases hcond with hcond | hcond
        · exact hcond
        · exact absurd hne2 (by simpa using hcond)
      have hps : s.playlist ≠ [] := by
        intro hcon
        exact hidx (hc.2.mpr hcon)
      have hv := hc.1 hps
      refine ⟨⟨fun _ => ⟨?_, ?_⟩, ?_, ?_⟩, ?_, ?_⟩
      · exact hv.1
      · show s.index < ((s.playlist ++ paths).length : Int)
        have := hv.2
        have hg2 : (s.playlist.length : Int) ≤ ((s.playlist ++ paths).length : Int) := by
          exact_mod_cast hgrow
        omega
      · intro hcon
        exact absurd hcon hidx
      · intro hcon
        have : s.playlist ++ paths = [] := hcon
        exact absurd this hne2
      · intro i hi
        have h2 := hu i hi
        show i < (s.playlist ++ paths).length
        omega
      · intro i hi
        have h2 := hh i hi
        show i < (s.playlist ++ paths).length
        omega

lemma add_files_UpcomingInv (paths : List String) (s : PlayerState)
    (h : UpcomingInv s) (hok : s.index = -1 → s.upcoming = []) :
    UpcomingInv (add_files paths s).1 := by
  unfold add_files
  dsimp only
  split
  · rename_i hcond
    have hup : s.upcoming = [] := hok hcond.1
    constructor
    · show s.upcoming.Nodup
      rw [hup]
      exact List.nodup_nil
    · intro i hi
      have : i ∈ s.upcoming := hi
      rw [hup] at this
      simp at this
  · exact h

lemma add_files_UpBounds (paths : List String) (s : PlayerState)
    (h : UpBounds s) : UpBounds (add_files paths s).1 := by
  unfold add_files
  dsimp only
  have key : ∀ i ∈ s.upcoming, i < (s.playlist ++ paths).length := by
    intro i hi
    have := h i hi
    simp only [List.length_append]
    omega
  split
  · intro i hi
    exact key i hi
  · intro i hi
    exact key i hi

lemma clear_StateInv (s : PlayerState) : StateInv (clear s).1 := by
  refine ⟨⟨?_, ?_, ?_⟩, ?_, ?_⟩
  · intro hcon
    exact absurd rfl hcon
  · intro _
    rfl
  · intro _
    rfl
  · intro i hi
    simp [clear] at hi
  · intro i hi
    simp [clear] at hi

lemma clear_UpcomingInv (s : PlayerState) : UpcomingInv (clear s).1 := by
  constructor
  · exact List.nodup_nil
  · intro i hi
    simp [clear] at hi

lemma clear_UpBounds (s : PlayerState) : UpBounds (clear s).1 := by
  intro i hi
  simp [clear] at hi

lemma clear_upcoming_StateInv (s : PlayerState) (h : StateInv s) :
    StateInv (clear_upcoming s).1 := by
  obtain ⟨hc, _, hh⟩ := h
  refine ⟨(cursorInv_congr rfl rfl).mpr hc, ?_, ?_⟩
  · intro i hi
    simp [clear_upcoming] at hi
  · intro i hi
    exact hh i hi

lemma clear_upcoming_UpcomingInv (s : PlayerState) :
    UpcomingInv (clear_upcoming s).1 := by
  constructor
  · exact List.nodup_nil
  · intro i hi
    simp [clear_upcoming] at hi

lemma clear_upcoming_UpBounds (s : PlayerState) :
    UpBounds (clear_upcoming s).1 := by
  intro i hi
  simp [clear_upcoming] at hi

lemma remove_upcoming_StateInv (pos : Int) (s : PlayerState) (h : StateInv s) :
    StateInv (remove_upcoming pos s).1 := by
  obtain ⟨hc, hu, hh⟩ := h
  unfold remove_upcoming
  split
  · refine ⟨(cursorInv_congr rfl rfl).mpr hc, ?_, ?_⟩
    · intro i hi
      have : i ∈ s.upcoming :=
        (List.eraseIdx_sublist s.upcoming pos.toNat).subset hi
      exact hu i this
    · intro i hi
      exact hh i hi
  · exact ⟨hc, hu, hh⟩

lemma remove_upcoming_UpcomingInv (pos : Int) (s : PlayerState)
    (h : UpcomingInv s) : UpcomingInv (remove_upcoming pos s).1 := by
  obtain ⟨hn, hm⟩ := h
  unfold remove_upcoming
  split
  · constructor
    · exact hn.sublist (List.eraseIdx_sublist s.upcoming pos.toNat)
    · intro i hi
      have : i ∈ s.upcoming :=
        (List.eraseIdx_sublist s.upcoming pos.toNat).subset hi
      exact hm i this
  · exact ⟨hn, hm⟩

lemma remove_upcoming_UpBounds (pos : Int) (s : PlayerState)
    (h : UpBounds s) : UpBounds (remove_upcoming pos s).1 := by
  unfold remove_upcoming
  split
  · intro i hi
    have : i ∈ s.upcoming :=
      (List.eraseIdx_sublist s.upcoming pos.toNat).subset hi
    exact h i this
  · exact h

lemma add_to_upcoming_state (paths : List String) (s : PlayerState) :
    (add_to_upcoming paths s).1 = (paths.foldl addToUpcomingStep (s, false)).1 := by
  unfold add_to_upcoming
  dsimp only

lemma add_to_upcoming_fold (P : PlayerState → Prop)
    (hstep : ∀ t b p, P t → P (addToUpcomingStep (t, b) p).1)
    (paths : List String) (s : PlayerState) (hs : P s) :
    P (add_to_upcoming paths s).1 := by
  rw [add_to_upcoming_state]
  exact foldl_pair_inv addToUpcomingStep P hstep paths s false hs

lemma add_to_upcoming_StateInv (paths : List String) (s : PlayerState)
    (h : StateInv s) (hok : s.playlist ≠ [] ∨ paths = []) :
    StateInv (add_to_upcoming paths s).1 := by
  rcases hok with hne | hemp
  · obtain ⟨hc, hu, hh⟩ := h
    have hv := hc.1 hne
    have hP : ∀ t : PlayerState,
        (t.index = s.index ∧ t.history = s.history ∧
         s.playlist.length ≤ t.playlist.length ∧ UpBounds t) →
        StateInv t := by
      intro t ⟨e1, e2, e3, e4⟩
      have hlen : 0 < t.playlist.length := by
        have := List.length_pos.mpr hne
        omega
      refine ⟨⟨fun _ => ⟨?_, ?_⟩, ?_, ?_⟩, e4, ?_⟩
      · rw [e1]
        exact hv.1
      · rw [e1]
        have := hv.2
        omega
      · intro hcon
        rw [e1] at hcon
        have h0 := hv.1
        omega
      · intro hcon
        have : t.playlist.length = 0 := by rw [hcon]; rfl
        omega
      · intro i hi
        rw [e2] at hi
        have := hh i hi
        omega
    apply hP
    apply add_to_upcoming_fold
      (fun t => t.index = s.index ∧ t.history = s.history ∧
        s.playlist.length ≤ t.playlist.length ∧ UpBounds t)
    · intro t b p ⟨e1, e2, e3, e4⟩
      obtain ⟨g1, g2, g3, g4, g5, g6⟩ := addToUpcomingStep_spec t b p
      refine ⟨g1.trans e1, g2.trans e2, le_trans e3 g4, ?_⟩
      rcases g6 with hsame | ⟨i, hi1, hi2, hi3, hi4⟩
      · intro j hj
        rw [hsame] at hj
        have := e4 j hj
        omega
      · intro j hj
        rw [hi4] at hj
        rcases List.mem_append.mp hj with h1 | h2
        · have := e4 j h1
          omega
        · simp only [List.mem_singleton] at h2
          subst h2
          exact hi1
    · exact ⟨rfl, rfl, le_refl _, hu⟩
  · subst hemp
    rw [add_to_upcoming_state]
    exact h

lemma add_to_upcoming_UpcomingInv (paths : List String) (s : PlayerState)
    (h : UpcomingInv s) : UpcomingInv (add_to_upcoming paths s).1 := by
  have main : (add_to_upcoming paths s).1.index = s.index ∧
      UpcomingInv (add_to_upcoming paths s).1 := by
    apply add_to_upcoming_fold (fun t => t.index = s.index ∧ UpcomingInv t)
    · intro t b p ⟨e1, hn, hm⟩
      obtain ⟨g1, g2, g3, g4, g5, g6⟩ := addToUpcomingStep_spec t b p
      refine ⟨g1.trans e1, ?_, ?_⟩
      · rcases g6 with hsame | ⟨i, hi1, hi2, hi3, hi4⟩
        · rw [hsame]
          exact hn
        · rw [hi4, List.nodup_append]
          refine ⟨hn, List.nodup_singleton i, ?_⟩
          intro a ha hb
          simp only [List.mem_singleton] at hb
          subst hb
          exact hi3 ha
      · rcases g6 with hsame | ⟨i, hi1, hi2, hi3, hi4⟩
        · intro j hj
          rw [hsame] at hj
          rw [g1]
          exact hm j hj
        · intro j hj
          rw [hi4] at hj
          rw [g1]
          rcases List.mem_append.mp hj with h1 | h2
          · exact hm j h1
          · simp only [List.mem_singleton] at h2
            subst h2
            exact hi2
    · exact ⟨rfl, h⟩
  exact main.2

lemma add_to_upcoming_UpBounds (paths : List String) (s : PlayerState)
    (h : UpBounds s) : UpBounds (add_to_upcoming paths s).1 := by
  apply add_to_upcoming_fold UpBounds
  · intro t b p ht
    obtain ⟨g1, g2, g3, g4, g5, g6⟩ := addToUpcomingStep_spec t b p
    rcases g6 with hsame | ⟨i, hi1, hi2, hi3, hi4⟩
    · intro j hj
      rw [hsame] at hj
      have := ht j hj
      omega
    · intro j hj
      rw [hi4] at hj
      rcases List.mem_append.mp hj with h1 | h2
      · have := ht j h1
        omega
      · simp only [List.mem_singleton] at h2
        subst h2
        exact hi1
  · exact h

lemma add_play_next_fold (P : PlayerState → Prop)
    (hstep : ∀ t acc p, P t → P (addPlayNextStep (t, acc) p).1)
    (paths : List String) (s : PlayerState) (hs : P s) :
    P (paths.foldl addPlayNextStep (s, [])).1 :=
  foldl_pair_inv addPlayNextStep P hstep paths s [] hs

lemma add_play_next_state_fields (paths : List String) (s : PlayerState) :
    (add_play_next paths s).1.playlist =
      (paths.foldl addPlayNextStep (s, [])).1.playlist ∧
    (add_play_next paths s).1.index =
      (paths.foldl addPlayNextStep (s, [])).1.index ∧
    (add_play_next paths s).1.history =
      (paths.foldl addPlayNextStep (s, [])).1.history ∧
    (add_play_next paths s).1.upcoming =
      (paths.foldl addPlayNextStep (s, [])).1.upcoming := by
  unfold add_play_next
  dsimp only
  split
  · exact ⟨rfl, rfl, rfl, rfl⟩
  · exact ⟨rfl, rfl, rfl, rfl⟩

lemma addPlayNext_foldP (s : PlayerState) (paths : List String) :
    (paths.foldl addPlayNextStep (s, [])).1.index = s.index ∧
    (paths.foldl addPlayNextStep (s, [])).1.history = s.history ∧
    (paths.foldl addPlayNextStep (s, [])).1.upcoming = s.upcoming ∧
    s.playlist.length ≤ (paths.foldl addPlayNextStep (s, [])).1.playlist.length := by
  apply add_play_next_fold (fun t => t.index = s.index ∧ t.history = s.history ∧
    t.upcoming = s.upcoming ∧ s.playlist.length ≤ t.playlist.length)
  · intro t acc p ⟨e1, e2, e3, e4⟩
    obtain ⟨g1, g2, g3, g4, g5, g6⟩ := addPlayNextStep_spec t acc p
    exact ⟨g1.trans e1, g2.trans e2, g4.trans e3, le_trans e4 g5⟩
  · exact ⟨rfl, rfl, rfl, le_refl _⟩

lemma add_play_next_StateInv (paths : List String) (s : PlayerState)
    (h : StateInv s) (hok : s.playlist ≠ [] ∨ paths = []) :
    StateInv (add_play_next paths s).1 := by
  obtain ⟨hc, hu, hh⟩ := h
  obtain ⟨w1, w2, w3, w4⟩ := add_play_next_state_fields paths s
  obtain ⟨e1, e2, e3, e4⟩ := addPlayNext_foldP s paths
  rcases hok with hne | hemp
  · have hv := hc.1 hne
    have hlen : 0 < s.playlist.length := List.length_pos.mpr hne
    refine ⟨⟨fun _ => ⟨?_, ?_⟩, ?_, ?_⟩, ?_, ?_⟩
    · rw [w2, e1]
      exact hv.1
    · rw [w2, e1, w1]
      have := hv.2
      omega
    · intro hcon
      rw [w2, e1] at hcon
      have := hv.1
      omega
    · intro hcon
      have : (add_play_next paths s).1.playlist.length = 0 := by rw [hcon]; rfl
      rw [w1] at this
      omega
    · intro i hi
      rw [w4, e3] at hi
      have := hu i hi
      rw [w1]
      omega
    · intro i hi
      rw [w3, e2] at hi
      have := hh i hi
      rw [w1]
      omega
  · subst hemp
    simp only [List.foldl_nil] at w1 w2 w3 w4 e1 e2 e3 e4
    refine ⟨⟨?_, ?_, ?_⟩, ?_, ?_⟩
    · intro hcon
      rw [w1] at hcon
      have hv := hc.1 hcon
      exact (validIndex_congr w1 w2).mpr hv
    · intro hcon
      rw [w2] at hcon
      rw [w1]
      exact hc.2.mp hcon
    · intro hcon
      rw [w1] at hcon
      rw [w2]
      exact hc.2.mpr hcon
    · intro i hi
      rw [w4] at hi
      rw [w1]
      exact hu i hi
    · intro i hi
      rw [w3] at hi
      rw [w1]
      exact hh i hi

lemma add_play_next_UpcomingInv (paths : List String) (s : PlayerState)
    (h : UpcomingInv s) : UpcomingInv (add_play_next paths s).1 := by
  obtain ⟨w1, w2, w3, w4⟩ := add_play_next_state_fields paths s
  obtain ⟨e1, e2, e3, e4⟩ := addPlayNext_foldP s paths
  constructor
  · rw [w4, e3]
    exact h.1
  · intro i hi
    rw [w4, e3] at hi
    rw [w2, e1]
    exact h.2 i hi

lemma add_play_next_UpBounds (paths : List String) (s : PlayerState)
    (h : UpBounds s) : UpBounds (add_play_next paths s).1 := by
  obtain ⟨w1, w2, w3, w4⟩ := add_play_next_state_fields paths s
  obtain ⟨e1, e2, e3, e4⟩ := addPlayNext_foldP s paths
  intro i hi
  rw [w4, e3] at hi
  have := h i hi
  rw [w1]
  omega

lemma peek_StateInv (σ : List Nat → List Nat) (sh : Bool) (s : PlayerState)
    (hσ : GoodShuffler σ) (h : StateInv s) : StateInv (peek_next σ sh s).2.1 := by
  rcases peek_state_cases σ sh s with hcase | hcase
  · rw [hcase]
    exact h
  · rw [hcase]
    exact StateInv_rebuild σ true s hσ h.1 h.2.2

lemma peek_UpcomingInv (σ : List Nat → List Nat) (sh : Bool) (s : PlayerState)
    (hσ : GoodShuffler σ) (h : UpcomingInv s) :
    UpcomingInv (peek_next σ sh s).2.1 := by
  rcases peek_state_cases σ sh s with hcase | hcase
  · rw [hcase]
    exact h
  · rw [hcase]
    exact rebuild_UpcomingInv σ true s hσ

lemma peek_UpBounds (σ : List Nat → List Nat) (sh : Bool) (s : PlayerState)
    (hσ : GoodShuffler σ) (h : UpBounds s) : UpBounds (peek_next σ sh s).2.1 := by
  rcases peek_state_cases σ sh s with hcase | hcase
  · rw [hcase]
    exact h
  · rw [hcase]
    exact rebuild_UpBounds σ true s hσ

/-- C1 (amended): each public operation preserves the cursor invariant
(playlist non-empty implies a valid current index, and index -1 iff empty)
when the pre-state also has all upcoming and history indices in bounds,
shufflers are permutations, and the side conditions `C1ok` hold: the original
claim fails because `add_to_upcoming` and `add_play_next` can append tracks to
an empty playlist while leaving the index at -1, and `set_playlist` can strand
stale upcoming/history indices. -/
theorem C1_cursor_invariant_amended (op : Op) (s : PlayerState)
    (hInv : StateInv s) (hok : C1ok op s) (hg : op.Good) :
    StateInv (op.apply s).1 := by
  cases op with
  | setPlaylist σ paths k =>
      exact set_playlist_StateInv σ paths k s hg hok.1 hok.2
  | addFiles paths => exact add_files_StateInv paths s hInv
  | clearOp => exact clear_StateInv s
  | nextOp σ sh => exact next_StateInv σ sh s hg hInv
  | previousOp σ sh => exact previous_StateInv σ sh s hg hInv
  | addToUpcoming paths => exact add_to_upcoming_StateInv paths s hInv hok
  | addPlayNext paths => exact add_play_next_StateInv paths s hInv hok
  | removeUpcoming pos => exact remove_upcoming_StateInv pos s hInv
  | clearUpcoming => exact clear_upcoming_StateInv s hInv
  | rebuildUpcoming σ sh => exact StateInv_rebuild σ sh s hg hInv.1 hInv.2.2
  | peekNext σ sh => exact peek_StateInv σ sh s hg hInv

/-- C1 counterexample: calling `addToUpcoming(["a"])` on the freshly
constructed player yields a non-empty playlist with `currentIndex = -1`,
violating the claimed invariant. -/
theorem C1_counterexample_check :
    ¬ CursorInv ((Op.addToUpcoming ["a"]).apply initState).1 := by decide

/-- C1 witness: the amended theorem applied to `next(shuffle=True)` on a
concrete three-track state. -/
theorem C1_witness_check :
    StateInv ((Op.nextOp id true).apply
      ((Op.setPlaylist id ["a", "b", "c"] 1).apply initState).1).1 :=
  C1_cursor_invariant_amended (Op.nextOp id true)
    ((Op.setPlaylist id ["a", "b", "c"] 1).apply initState).1
    (by decide) True.intro (fun l => List.Perm.refl l)

/-- C2 (amended): the upcoming list stays duplicate-free and never contains
the current index under every operation, provided shufflers are permutations,
`next` is only called with an empty manual queue, and `add_files` is not
called in the corner state of no selection with a stale upcoming list: the
original claim fails because the manual-override branch of `next` jumps to the
manual track without rebuilding the upcoming list. -/
theorem C2_upcoming_invariant_amended (op : Op) (s : PlayerState)
    (hInv : UpcomingInv s) (hok : C2ok op s) (hg : op.Good) :
    UpcomingInv (op.apply s).1 := by
  cases op with
  | setPlaylist σ paths k => exact set_playlist_UpcomingInv σ paths k s hg hInv
  | addFiles paths => exact add_files_UpcomingInv paths s hInv hok
  | clearOp => exact clear_UpcomingInv s
  | nextOp σ sh => exact next_UpcomingInv σ sh s hg hInv hok
  | previousOp σ sh => exact previous_UpcomingInv σ sh s hg hInv
  | addToUpcoming paths => exact add_to_upcoming_UpcomingInv paths s hInv
  | addPlayNext paths => exact add_play_next_UpcomingInv paths s hInv
  | removeUpcoming pos => exact remove_upcoming_UpcomingInv pos s hInv
  | clearUpcoming => exact clear_upcoming_UpcomingInv s
  | rebuildUpcoming σ sh => exact rebuild_UpcomingInv σ sh s hg
  | peekNext σ sh => exact peek_UpcomingInv σ sh s hg hInv

/-- C2 counterexample: playlist [a,b,c] at track a, `addPlayNext([c])`
followed by `next()` makes c current while the upcoming list still contains
it, so `upcomingTracks()` contains the current track. -/
theorem C2_counterexample_check :
    current_track ((Op.nextOp id false).apply
        ((Op.addPlayNext ["c"]).apply
          ((Op.setPlaylist id ["a", "b", "c"] 0).apply initState).1).1).1 =
      some "c" ∧
    upcoming_tracks ((Op.nextOp id false).apply
        ((Op.addPlayNext ["c"]).apply
          ((Op.setPlaylist id ["a", "b", "c"] 0).apply initState).1).1).1 =
      some ["b", "c"] := by decide

/-- C2 witness: the amended theorem applied to `next(shuffle=False)` on a
concrete three-track state with an empty manual queue. -/
theorem C2_witness_check :
    UpcomingInv ((Op.nextOp id false).apply
      ((Op.setPlaylist id ["a", "b", "c"] 0).apply initState).1).1 :=
  C2_upcoming_invariant_amended (Op.nextOp id false)
    ((Op.setPlaylist id ["a", "b", "c"] 0).apply initState).1
    (by decide) (by decide) (fun l => List.Perm.refl l)

/-- C10 (amended): every operation keeps all stored upcoming indices within
the playlist bounds, and then `upcoming_tracks` succeeds, provided shufflers
are permutations and `set_playlist` is not called with an empty list while
the upcoming list is non-empty: the original claim fails because
`set_playlist([])` returns early and strands the old indices. -/
theorem C10_upcoming_bounds_amended (op : Op) (s : PlayerState)
    (hInv : UpBounds s) (hok : C10ok op s) (hg : op.Good) :
    UpBounds (op.apply s).1 ∧ (upcoming_tracks (op.apply s).1).isSome := by
  have hb : UpBounds (op.apply s).1 := by
    cases op with
    | setPlaylist σ paths k => exact set_playlist_UpBounds σ paths k s hg hok
    | addFiles paths => exact add_files_UpBounds paths s hInv
    | clearOp => exact clear_UpBounds s
    | nextOp σ sh => exact next_UpBounds σ sh s hg hInv
    | previousOp σ sh => exact previous_UpBounds σ sh s hg hInv
    | addToUpcoming paths => exact add_to_upcoming_UpBounds paths s hInv
    | addPlayNext paths => exact add_play_next_UpBounds paths s hInv
    | removeUpcoming pos => exact remove_upcoming_UpBounds pos s hInv
    | clearUpcoming => exact clear_upcoming_UpBounds s
    | rebuildUpcoming σ sh => exact rebuild_UpBounds σ sh s hg
    | peekNext σ sh => exact peek_UpBounds σ sh s hg hInv
  exact ⟨hb, upcoming_tracks_isSome hb⟩

/-- C10 counterexample: `set_playlist(["a","b"], 0)` then
`set_playlist([], 0)` leaves index 1 in the upcoming list of an empty
playlist, and `upcoming_tracks` fails (the source raises IndexError). -/
theorem C10_counterexample_check :
    1 ∈ ((Op.setPlaylist id [] 0).apply
        ((Op.setPlaylist id ["a", "b"] 0).apply initState).1).1.upcoming ∧
    ((Op.setPlaylist id [] 0).apply
        ((Op.setPlaylist id ["a", "b"] 0).apply initState).1).1.playlist = [] ∧
    upcoming_tracks ((Op.setPlaylist id [] 0).apply
        ((Op.setPlaylist id ["a", "b"] 0).apply initState).1).1 = none := by
  decide

/-- C10 witness: the amended theorem applied to a concrete one-track
replacement. -/
theorem C10_witness_check :
    UpBounds ((Op.setPlaylist id ["x"] 0).apply initState).1 ∧
    (upcoming_tracks ((Op.setPlaylist id ["x"] 0).apply initState).1).isSome :=
  C10_upcoming_bounds_amended (Op.setPlaylist id ["x"] 0) initState
    (by decide) (by decide) (fun l => List.Perm.refl l)

/-- C3 witness: concrete two-track playlist with X and Y appended by the
call; first `next` is linear, second is shuffled. -/
theorem C3_witness_check :
    current_track (next id false (add_play_next ["C", "D"]
      (set_playlist id ["A", "B"] 0 initState).1).1).1 = some "C" ∧
    current_track (next id true (next id false (add_play_next ["C", "D"]
      (set_playlist id ["A", "B"] 0 initState).1).1).1).1 = some "D" :=
  C3_manual_queue_priority id id false true
    (set_playlist id ["A", "B"] 0 initState).1 "C" "D"
    (by decide) (by decide) (by decide) (by decide) (by decide)

/-- C4 witness: the round trip on a concrete three-track playlist. -/
theorem C4_witness_check :
    (next id true (set_playlist id ["A", "B", "C"] 0 initState).1).1.history =
      (set_playlist id ["A", "B", "C"] 0 initState).1.history ++
        [(set_playlist id ["A", "B", "C"] 0 initState).1.index.toNat] ∧
    (previous id true (next id true
        (set_playlist id ["A", "B", "C"] 0 initState).1).1).1.index =
      (set_playlist id ["A", "B", "C"] 0 initState).1.index ∧
    (previous id true (next id true
        (set_playlist id ["A", "B", "C"] 0 initState).1).1).1.history =
      (set_playlist id ["A", "B", "C"] 0 initState).1.history :=
  C4_shuffle_round_trip id id (set_playlist id ["A", "B", "C"] 0 initState).1
    (fun l => List.Perm.refl l) (by decide) (by decide) (by decide)

/-- C5 witness: the theorem applied to the four-track playlist [A,B,C,D]
at A, plus the concrete trace B, C, D and wrap back to A. -/
theorem C5_witness_check :
    (next id false (set_playlist id ["A", "B", "C", "D"] 0 initState).1).1.index =
      (if (set_playlist id ["A", "B", "C", "D"] 0 initState).1.index + 1 =
          ((set_playlist id ["A", "B", "C", "D"] 0 initState).1.playlist.length : Int)
        then 0
        else (set_playlist id ["A", "B", "C", "D"] 0 initState).1.index + 1) ∧
    current_track (next id false
      (set_playlist id ["A", "B", "C", "D"] 0 initState).1).1 = some "B" ∧
    current_track (next id false (next id false
      (set_playlist id ["A", "B", "C", "D"] 0 initState).1).1).1 = some "C" ∧
    current_track (next id false (next id false (next id false
      (set_playlist id ["A", "B", "C", "D"] 0 initState).1).1).1).1 = some "D" ∧
    current_track (next id false (next id false (next id false (next id false
      (set_playlist id ["A", "B", "C", "D"] 0 initState).1).1).1).1).1 =
      some "A" :=
  ⟨C5_linear_advance id (set_playlist id ["A", "B", "C", "D"] 0 initState).1
    (by decide) (by decide) (by decide) (by decide),
   by decide, by decide, by decide, by decide⟩

/-- C6 witness: the peek/next asymmetry on the concrete playlist [A]. -/
theorem C6_witness_check :
    (peek_next id false (set_playlist id ["A"] 0 initState).1).1 = none ∧
    (next id false (set_playlist id ["A"] 0 initState).1).1.index = 0 ∧
    current_track (next id false (set_playlist id ["A"] 0 initState).1).1 =
      some "A" ∧
    PEvent.trackChanged "A" ∈
      (next id false (set_playlist id ["A"] 0 initState).1).2 :=
  C6_single_track "A" id id (set_playlist id ["A"] 0 initState).1
    (by decide) (by decide) (by decide)

/-- C7 witness: queueing the current track A of [A,B] changes nothing. -/
theorem C7_witness_check :
    (add_play_next ["A"] (set_playlist id ["A", "B"] 0 initState).1).1 =
      (set_playlist id ["A", "B"] 0 initState).1 ∧
    (add_play_next ["A"] (set_playlist id ["A", "B"] 0 initState).1).2 = [] :=
  C7_play_next_current_noop (set_playlist id ["A", "B"] 0 initState).1 "A"
    (by decide)

/-- C8 witness: the frame property instantiated at the initial state in
shuffle mode. -/
theorem C8_witness_check :
    (peek_next id true initState).2.1.playlist = initState.playlist ∧
    (peek_next id true initState).2.1.index = initState.index ∧
    (peek_next id true initState).2.1.history = initState.history ∧
    (peek_next id true initState).2.1.manualNext = initState.manualNext ∧
    ((peek_next id true initState).2.1.upcoming ≠ initState.upcoming →
      true = true ∧ initState.upcoming = []) :=
  C8_peek_next_is_pure id true initState

end Icho
